import Mathlib

/-!
Shallow embedding of the dnsperfbench benchmark engine (src/main.go).

Conventions of the embedding:
* Go `time.Duration` is an `int64` count of nanoseconds; it is modelled as `Int`.
* The DNS exchange (`dns.Client.ExchangeContext`) is external I/O; it is
  modelled as an oracle `exch : Nat → String → ExchRes` mapping the global
  query sequence number and the queried hostname to the outcome of that
  exchange.  Each query the program issues consumes one sequence number, in
  program order.  The resolver address, fixed for a whole `runtests` /
  `testrecursive` call, is absorbed into the oracle.
* `math/rand` is external nondeterminism; the `rand.Intn(len(letterRunes))`
  draws feeding `randStringRunes` are modelled as an oracle
  `rng : Nat → Nat → Nat`, where `rng q i` is the i-th rune draw of the
  label built for the query with global sequence number `q` (only the draws
  are random — the label is deterministically 15 lowercase letters), and the
  `rand.Intn` pick of the cache-hit hostname as an explicit index.
* The float64 statistics (`stats.Mean`, `stats.Median`, the score arithmetic)
  are modelled exactly over `ℚ`: in the program's operating range (sums of at
  most 15 durations each at most the 10-second sentinel) every float64
  operation involved is exact except the final float→int64 conversion, which
  truncates toward zero and is modelled by `durOfFloat`.
-/

namespace Dnsperfbench

/-- One DNS answer record as `testresolver` inspects it: either an address
(A) record carrying its address rendered as a dotted-quad string
(`arec.A.String()`), or a record of any other type. -/
inductive DNSAnswer where
  | arec (addr : String)
  | other
deriving DecidableEq

/-- Outcome of one DNS exchange: a transport error or timeout (`err != nil`),
or a received response carrying its answer records and the measured
round-trip time `rtt` in nanoseconds. -/
inductive ExchRes where
  | err
  | ok (answers : List DNSAnswer) (rtt : Int)
deriving DecidableEq

/-- The distinct failure causes `testresolver` can return. -/
inductive FailCause where
  | transport
  | wrongAnswerCount
  | wrongRecordType
  | hijackSuspect
deriving DecidableEq

/-- Go `expectedanswers`: the fixed allowlist of expected answer addresses
(membership in the Go map is by exact string match on the rendered address). -/
def expectedanswers : List String := ["138.197.54.54", "138.197.53.4"]

/-- Go `failDuration = time.Second * 10`, in nanoseconds. -/
def failDuration : Int := 10 * 1000000000

/-- Go `testresolver(hostname, resolver)`, validation part.  The transport
exchange is supplied as its outcome `x`; the function mirrors the source
line by line: a transport error returns `(failDuration, err)`; then
`len(in.Answer) != 1` fails with wrong answer count; then the type assertion
`in.Answer[0].(*dns.A)` fails with wrong record type; then membership of the
answer address in `expectedanswers` is required, otherwise the hijack-suspect
failure; on success the measured `rtt` is returned with no error. -/
def testresolver (x : ExchRes) : Int × Option FailCause :=
  match x with
  | ExchRes.err => (failDuration, some FailCause.transport)
  | ExchRes.ok answers rtt =>
    if answers.length ≠ 1 then
      (failDuration, some FailCause.wrongAnswerCount)
    else
      match answers with
      | DNSAnswer.arec addr :: _ =>
        if expectedanswers.contains addr then (rtt, none)
        else (failDuration, some FailCause.hijackSuspect)
      | _ => (failDuration, some FailCause.wrongRecordType)

/-- Go `testrep = 15`: the number of times each test is repeated. -/
def testrep : Nat := 15

/-- Go `resolverResults`: mean latency, median latency (both `time.Duration`
nanosecond counts) and the failure ratio (`float64`, modelled exactly as a
rational). -/
structure resolverResults where
  mean : Int
  median : Int
  failratio : ℚ
deriving DecidableEq

/-- Go float64→`time.Duration` conversion: truncation toward zero of the
(exactly represented) value. -/
def durOfFloat (q : ℚ) : Int :=
  if 0 ≤ q then ⌊q⌋ else ⌈q⌉

/-- stats.Mean over the float64 images of the duration values, computed
exactly: the sum divided by the length. -/
def statsMean (vals : List Int) : ℚ :=
  (vals.sum : ℚ) / (vals.length : ℚ)

/-- stats.Median over the float64 images of the duration values, computed
exactly: sort ascending; for odd length take the middle element, for even
length the mean of the two middle elements. -/
def statsMedian (vals : List Int) : ℚ :=
  if vals.length % 2 = 0 then
    (((List.insertionSort (· ≤ ·) vals).getD (vals.length / 2 - 1) 0 : ℚ)
      + ((List.insertionSort (· ≤ ·) vals).getD (vals.length / 2) 0 : ℚ)) / 2
  else
    ((List.insertionSort (· ≤ ·) vals).getD (vals.length / 2) 0 : ℚ)

/-- Go `letterRunes = []rune("abcdefghijklmnopqrstuvwxyz")`. -/
def letterRunes : List Char := "abcdefghijklmnopqrstuvwxyz".toList

/-- Go `randStringRunes(n)`: a string of `n` runes, each
`letterRunes[rand.Intn(len(letterRunes))]`.  The oracle `f i` is the i-th
`rand.Intn` draw of this call; `Intn` guarantees a result below its bound,
which the model realises by reducing the draw modulo the alphabet size. -/
def randStringRunes (f : Nat → Nat) (n : Nat) : String :=
  String.mk ((List.range n).map fun i => letterRunes.getD (f i % letterRunes.length) 'a')

/-- The hostname `runtests` passes to `testresolver` on the query with global
sequence number `q`: with the randomization flag set, a fresh random
15-character label (`randStringRunes(15)`, built from that query's own rune
draws `rng q`) is prefixed with a dot to the probe hostname; otherwise the
hostname itself. -/
def trialHostname (rng : Nat → Nat → Nat) (host : String) (rndSuffix : Bool) (q : Nat) : String :=
  if rndSuffix then randStringRunes (rng q) 15 ++ "." ++ host else host

/-- The outcomes of the `testrep` sequential `testresolver` calls made by one
`runtests` invocation whose first query has global sequence number `ctr`. -/
def trialOutcomes (exch : Nat → String → ExchRes) (rng : Nat → Nat → Nat)
    (ctr : Nat) (host : String) (rndSuffix : Bool) : List (Int × Option FailCause) :=
  (List.range testrep).map fun i =>
    testresolver (exch (ctr + i) (trialHostname rng host rndSuffix (ctr + i)))

/-- Go `runtests(host, res, rndSuffix)`: run `testresolver` `testrep` times
sequentially, collect every returned duration in `vals` and count the trials
that returned an error in `fails`, then summarise: `stats.Mean` and
`stats.Median` of the values (each converted back to `time.Duration`,
truncating), and `failratio = fails / testrep`. -/
def runtests (exch : Nat → String → ExchRes) (rng : Nat → Nat → Nat)
    (ctr : Nat) (host : String) (rndSuffix : Bool) : resolverResults :=
  let outs := trialOutcomes exch rng ctr host rndSuffix
  let vals := outs.map Prod.fst
  let fails := (outs.filter fun o => o.2.isSome).length
  { mean := durOfFloat (statsMean vals)
  , median := durOfFloat (statsMedian vals)
  , failratio := (fails : ℚ) / (testrep : ℚ) }

/-- Go `hostnamesHIT`: the cache-hit hostnames. -/
def hostnamesHIT : List String := ["fixed.turbobytes.net.", "fixed2.turbobytes.net."]

/-- Go `auths`: the authoritative operators and their probe hostnames (a Go
map; the entry order below is the textual order of the source, which is
irrelevant since every access goes through lookup or the sorted key list). -/
def auths : List (String × String) :=
  [ ("NS1", "tbrum3.com.")
  , ("Google", "tbrum4.com.")
  , ("AWS Route53", "tbrum5.com.")
  , ("DNSimple", "tbrum14.com.")
  , ("GoDaddy", "tbrum2.com.")
  , ("Akamai", "tbrum9.com.")
  , ("Dyn", "tbrum10.com.")
  , ("CloudFlare", "tbrum8.com.")
  , ("EasyDNS", "tbrum16.com.")
  , ("Ultradns", "tbrum22.com.")
  , ("Azure", "tbrum25.com.")
  ]

/-- Go `authSl`, built in `init`: the keys of `auths` sorted with
`sort.Strings` (lexicographic order; the comparator is stated on the
character lists, which by `String.le_iff_toList_le` is exactly the `≤` order
of `String`). -/
def authSl : List String :=
  List.insertionSort (fun a b => a.toList ≤ b.toList) (auths.map Prod.fst)

/-- Go map lookup `auths[a]` (zero value `""` on a miss, which never happens
for keys drawn from `authSl`). -/
def authsHost (a : String) : String := (auths.lookup a).getD ""

/-- The number of unmeasured cache-priming queries `testrecursive` issues
(the literal bound of its `for i := 0; i < 5` loop). -/
def primingQueries : Nat := 5

/-- Go `recursiveResults`: the per-resolver result bundle, a map from probe
identifier to its sample summary (modelled as the association list in
insertion order; keys are distinct). -/
def recursiveResults := List (String × resolverResults)

/-- The zero value of `resolverResults`, which a Go map index returns for an
absent key. -/
def zeroResults : resolverResults := { mean := 0, median := 0, failratio := 0 }

/-- Go map index `res[k]` on a result bundle, with the zero-value default. -/
def getRR (res : recursiveResults) (k : String) : resolverResults :=
  (res.lookup k).getD zeroResults

/-- Go `testrecursive(res)`: pick one cache-hit hostname (`hitIdx` models the
`rand.Intn(len(hostnamesHIT))` draw); issue `primingQueries` unmeasured
priming queries against it, discarding the outcomes (they consume the global
query sequence numbers `0 .. primingQueries-1` and nothing else); store under
`"ResolverHit"` one `runtests` sample with randomization disabled (its trials
consume sequence numbers `5 .. 19`); then for each operator of `authSl` in
order store one `runtests` sample with randomization enabled against that
operator's hostname (consuming the next 15 sequence numbers each). -/
def testrecursive (exch : Nat → String → ExchRes) (rng : Nat → Nat → Nat)
    (hitIdx : Nat) : recursiveResults :=
  ("ResolverHit", runtests exch rng primingQueries (hostnamesHIT.getD hitIdx "") false) ::
    authSl.enum.map fun p =>
      (p.2, runtests exch rng (primingQueries + testrep + testrep * p.1)
        (authsHost p.2) true)

/-- Go `time.Duration / time.Millisecond`: `int64` division, truncating
toward zero, of a nanosecond count by `10^6`. -/
def msOf (d : Int) : Int := Int.tdiv d 1000000

/-- Go `recursiveResults.Score()`: `5 * (mean_ms + median_ms)` of the
`"ResolverHit"` entry, then for each operator of `authSl` add that entry's
`mean_ms + median_ms`, where `_ms` is the truncating division `msOf`.  The
arithmetic is float64 in the source; on the integers produced by `msOf` it is
exact and is modelled over `ℚ`. -/
def Score (res : recursiveResults) : ℚ :=
  let result := getRR res "ResolverHit"
  authSl.foldl
    (fun acc a =>
      let r := getRR res a
      acc + ((msOf r.mean : ℚ) + (msOf r.median : ℚ)))
    (5 * ((msOf result.mean : ℚ) + (msOf result.median : ℚ)))

/-- Go `appendIfMissing(src, new)`: return `src` unchanged when some element
equals `new`, otherwise `src` with `new` appended. -/
def appendIfMissing (src : List String) (nw : String) : List String :=
  if src.contains nw then src else src ++ [nw]

/-- Go `init`, resolver-list part: start from the default resolvers and fold
every user-supplied addition through `appendIfMissing`. -/
def buildResolvers (dflt adds : List String) : List String :=
  adds.foldl appendIfMissing dflt

/-- Go `SummaryResolver`: a resolver address and its score. -/
structure SummaryResolver where
  Res : String
  Score : ℚ
deriving DecidableEq

/-- Go `Summary.Less(i, j)`: strict comparison of scores. -/
def summaryLess (a b : SummaryResolver) : Bool := a.Score < b.Score

/-- Go `sort.Sort(summary)`: a permutation of the summary slice that is
nondecreasing with respect to `Less` (elements `a` before `b` satisfy
`!Less(b, a)`, i.e. `a.Score ≤ b.Score`). -/
def sortSummary (s : List SummaryResolver) : List SummaryResolver :=
  List.insertionSort (fun a b => (!summaryLess b a) = true) s

/-- Go `main`, recommendation part: the resolver of `summary[0]` after the
sort — printed as the `Recommendation` line in raw mode and named in the
human-readable closing sentence. -/
def recommendation (s : List SummaryResolver) : Option String :=
  (sortSummary s).head?.map SummaryResolver.Res

/-! ### Helper lemmas -/

/-- A failing probe outcome always carries the sentinel duration. -/
theorem testresolver_fail_duration (x : ExchRes) (h : ((testresolver x).2).isSome) :
    (testresolver x).1 = failDuration := by
  rcases x with _ | ⟨answers, rtt⟩
  · rfl
  · rcases answers with _ | ⟨a, rest⟩
    · simp [testresolver]
    · rcases rest with _ | ⟨b, rest'⟩
      · rcases a with addr | _
        · by_cases hm : addr ∈ expectedanswers
          · simp [testresolver, hm] at h
          · simp [testresolver, hm]
        · simp [testresolver]
      · simp [testresolver]

theorem foldl_add_map_sum {α : Type} (f : α → ℚ) (l : List α) :
    ∀ b : ℚ, l.foldl (fun acc a => acc + f a) b = b + (l.map f).sum := by
  induction l with
  | nil => intro b; simp
  | cons a l ih => intro b; simp [ih, add_assoc]

/-- Closed form of the score fold. -/
theorem score_eq (res : recursiveResults) :
    Score res =
      5 * ((msOf (getRR res "ResolverHit").mean : ℚ) + (msOf (getRR res "ResolverHit").median : ℚ))
      + (authSl.map fun a =>
          ((msOf (getRR res a).mean : ℚ) + (msOf (getRR res a).median : ℚ))).sum := by
  unfold Score
  exact foldl_add_map_sum _ authSl _

/-- Truncating millisecond conversion shifts by exactly `k` under a
whole-millisecond increment of a nonnegative duration. -/
theorem msOf_add_mul (m k : Int) (hm : 0 ≤ m) (hk : 0 ≤ k) :
    msOf (m + k * 1000000) = msOf m + k := by
  unfold msOf
  rw [Int.tdiv_eq_ediv (by omega) (by omega), Int.tdiv_eq_ediv hm (by omega),
    Int.add_mul_ediv_right _ _ (by omega)]

theorem durOfFloat_intCast (m : Int) : durOfFloat (m : ℚ) = m := by
  unfold durOfFloat
  split
  · exact Int.floor_intCast m
  · exact Int.ceil_intCast m

/-- A `runtests` call reads the exchange oracle only at its own
`testrep` query sequence numbers. -/
theorem trialOutcomes_congr (exch exch' : Nat → String → ExchRes) (rng : Nat → Nat → Nat)
    (ctr : Nat) (host : String) (rndSuffix : Bool)
    (h : ∀ q hst, ctr ≤ q → q < ctr + testrep → exch q hst = exch' q hst) :
    trialOutcomes exch rng ctr host rndSuffix = trialOutcomes exch' rng ctr host rndSuffix := by
  unfold trialOutcomes
  apply List.map_congr_left
  intro i hi
  rw [List.mem_range] at hi
  rw [h (ctr + i) _ (by omega) (by omega)]

theorem runtests_congr (exch exch' : Nat → String → ExchRes) (rng : Nat → Nat → Nat)
    (ctr : Nat) (host : String) (rndSuffix : Bool)
    (h : ∀ q hst, ctr ≤ q → q < ctr + testrep → exch q hst = exch' q hst) :
    runtests exch rng ctr host rndSuffix = runtests exch' rng ctr host rndSuffix := by
  unfold runtests
  rw [trialOutcomes_congr exch exch' rng ctr host rndSuffix h]

/-- Without the randomization flag the rune-draw oracle is never consulted. -/
theorem runtests_rng_irrel (exch : Nat → String → ExchRes) (rng rng' : Nat → Nat → Nat)
    (ctr : Nat) (host : String) :
    runtests exch rng ctr host false = runtests exch rng' ctr host false := by
  rfl

theorem trialOutcomes_length (exch : Nat → String → ExchRes) (rng : Nat → Nat → Nat)
    (ctr : Nat) (host : String) (rndSuffix : Bool) :
    (trialOutcomes exch rng ctr host rndSuffix).length = testrep := by
  unfold trialOutcomes
  simp

/-- Whatever the rune draws, `randStringRunes f n` is an `n`-character string
over the lowercase alphabet. -/
theorem randStringRunes_spec (f : Nat → Nat) (n : Nat) :
    (randStringRunes f n).length = n ∧
    ∀ c ∈ (randStringRunes f n).toList, c ∈ letterRunes := by
  constructor
  · simp [randStringRunes, String.length]
  · intro c hc
    simp only [randStringRunes, String.toList] at hc
    rw [List.mem_map] at hc
    obtain ⟨i, hi, rfl⟩ := hc
    have hlt : f i % letterRunes.length < letterRunes.length :=
      Nat.mod_lt _ (by decide)
    rw [List.getD_eq_getElem _ _ hlt]
    exact List.getElem_mem hlt


/-- The median of a 15-element duration list is one of the values, with at
least 8 of the values at or below it and at least 8 at or above it. -/
theorem statsMedian_spec (vals : List Int) (hlen : vals.length = 15) :
    ∃ m : Int, statsMedian vals = (m : ℚ) ∧ m ∈ vals ∧
      8 ≤ vals.countP (fun x => x ≤ m) ∧ 8 ≤ vals.countP (fun x => m ≤ x) := by
  have hperm : (List.insertionSort (· ≤ ·) vals).Perm vals := List.perm_insertionSort _ vals
  have hslen : (List.insertionSort (· ≤ ·) vals).length = 15 := by
    rw [List.length_insertionSort, hlen]
  have h7 : 7 < (List.insertionSort (· ≤ ·) vals).length := by omega
  have hsorted : List.Pairwise (fun a b : Int => a ≤ b) (List.insertionSort (· ≤ ·) vals) :=
    List.sorted_insertionSort _ vals
  refine ⟨(List.insertionSort (· ≤ ·) vals)[7], ?_, ?_, ?_, ?_⟩
  · unfold statsMedian
    rw [if_neg (by omega), hlen]
    norm_num
    rw [List.getElem?_eq_getElem h7]
    rfl
  · exact hperm.subset (List.getElem_mem h7)
  · have htake : ∀ a ∈ (List.insertionSort (· ≤ ·) vals).take 8,
        (fun x : Int => decide (x ≤ (List.insertionSort (· ≤ ·) vals)[7])) a = true := by
      intro a ha
      rw [List.mem_iff_getElem] at ha
      obtain ⟨i, hi, rfl⟩ := ha
      have hi8 : i < 8 := by
        have h2 := hi
        rw [List.length_take] at h2
        omega
      rw [List.getElem_take]
      rcases Nat.lt_or_ge i 7 with h | h
      · have := (List.pairwise_iff_getElem.mp hsorted) i 7 (by omega) h7 h
        simpa using this
      · have h77 : i = 7 := by omega
        subst h77
        simp
    calc (8 : Nat) = ((List.insertionSort (· ≤ ·) vals).take 8).length := by
          rw [List.length_take]; omega
      _ = ((List.insertionSort (· ≤ ·) vals).take 8).countP
            (fun x : Int => decide (x ≤ (List.insertionSort (· ≤ ·) vals)[7])) :=
          (List.countP_eq_length.mpr htake).symm
      _ ≤ (List.insertionSort (· ≤ ·) vals).countP
            (fun x : Int => decide (x ≤ (List.insertionSort (· ≤ ·) vals)[7])) :=
          List.Sublist.countP_le _ (List.take_sublist 8 _)
      _ = vals.countP (fun x : Int => decide (x ≤ (List.insertionSort (· ≤ ·) vals)[7])) :=
          List.Perm.countP_eq _ hperm
  · have hdrop : ∀ a ∈ (List.insertionSort (· ≤ ·) vals).drop 7,
        (fun x : Int => decide ((List.insertionSort (· ≤ ·) vals)[7] ≤ x)) a = true := by
      intro a ha
      rw [List.mem_iff_getElem] at ha
      obtain ⟨j, hj, rfl⟩ := ha
      rw [List.getElem_drop]
      rcases Nat.eq_zero_or_pos j with h | h
      · subst h
        simp
      · have := (List.pairwise_iff_getElem.mp hsorted) 7 (7 + j) h7
          (by rw [List.length_drop] at hj; omega) (by omega)
        simpa using this
    calc (8 : Nat) = ((List.insertionSort (· ≤ ·) vals).drop 7).length := by
          rw [List.length_drop]; omega
      _ = ((List.insertionSort (· ≤ ·) vals).drop 7).countP
            (fun x : Int => decide ((List.insertionSort (· ≤ ·) vals)[7] ≤ x)) :=
          (List.countP_eq_length.mpr hdrop).symm
      _ ≤ (List.insertionSort (· ≤ ·) vals).countP
            (fun x : Int => decide ((List.insertionSort (· ≤ ·) vals)[7] ≤ x)) :=
          List.Sublist.countP_le _ (List.drop_sublist 7 _)
      _ = vals.countP (fun x : Int => decide ((List.insertionSort (· ≤ ·) vals)[7] ≤ x)) :=
          List.Perm.countP_eq _ hperm

theorem durOfFloat_floor (q : ℚ) (h : 0 ≤ q) : durOfFloat q = ⌊q⌋ := by
  unfold durOfFloat
  rw [if_pos h]

theorem statsMean_nonneg (vals : List Int) (h : ∀ x ∈ vals, 0 ≤ x) : 0 ≤ statsMean vals := by
  unfold statsMean
  apply div_nonneg
  · exact_mod_cast List.sum_nonneg h
  · positivity

theorem statsMean_le (vals : List Int) (B : Int) (hlen : vals.length = 15)
    (hB : ∀ x ∈ vals, x ≤ B) : statsMean vals ≤ (B : ℚ) := by
  unfold statsMean
  rw [hlen]
  rw [div_le_iff₀ (by norm_num)]
  have hsum : vals.sum ≤ 15 * B := by
    have h2 := List.sum_le_card_nsmul vals B hB
    rw [hlen] at h2
    simpa [nsmul_eq_mul] using h2
  calc (vals.sum : ℚ) ≤ ((15 * B : ℤ) : ℚ) := by exact_mod_cast hsum
    _ = (B : ℚ) * 15 := by push_cast; ring

theorem statsMean_replicate (c : Int) : statsMean (List.replicate 15 c) = (c : ℚ) := by
  unfold statsMean
  rw [List.sum_replicate, List.length_replicate]
  push_cast [nsmul_eq_mul]
  field_simp

theorem insertionSort_replicate (n : Nat) (c : Int) :
    List.insertionSort (· ≤ ·) (List.replicate n c) = List.replicate n c := by
  apply List.eq_replicate_iff.mpr
  constructor
  · rw [List.length_insertionSort, List.length_replicate]
  · intro b hb
    exact List.eq_of_mem_replicate
      ((List.perm_insertionSort (· ≤ ·) (List.replicate n c)).subset hb)

theorem statsMedian_replicate15 (c : Int) : statsMedian (List.replicate 15 c) = (c : ℚ) := by
  unfold statsMedian
  rw [insertionSort_replicate, List.length_replicate]
  norm_num

/-- The sorted operator list, evaluated. -/
theorem authSl_eq : authSl = ["AWS Route53", "Akamai", "Azure", "CloudFlare", "DNSimple",
    "Dyn", "EasyDNS", "GoDaddy", "Google", "NS1", "Ultradns"] := by
  decide

theorem map_msOf_sum_int (res : recursiveResults) (l : List String) :
    ∃ n : Int, (l.map fun a =>
      ((msOf (getRR res a).mean : ℚ) + (msOf (getRR res a).median : ℚ))).sum = (n : ℚ) := by
  induction l with
  | nil => exact ⟨0, by simp⟩
  | cons a l ih =>
    obtain ⟨n, hn⟩ := ih
    refine ⟨msOf (getRR res a).mean + msOf (getRR res a).median + n, ?_⟩
    simp only [List.map_cons, List.sum_cons, hn]
    push_cast
    ring

theorem getRR_single_ne (v : resolverResults) (a : String)
    (h : (a == "ResolverHit") = false) :
    getRR [("ResolverHit", v)] a = zeroResults := by
  unfold getRR
  simp [List.lookup, h]

/-- Score of a bundle holding only a ResolverHit entry: every authoritative
lookup falls back to the zero value and contributes nothing. -/
theorem score_single (v : resolverResults) :
    Score [("ResolverHit", v)] = 5 * ((msOf v.mean : ℚ) + (msOf v.median : ℚ)) := by
  rw [score_eq]
  have h1 : getRR [("ResolverHit", v)] "ResolverHit" = v := rfl
  have h2 : (authSl.map fun a => ((msOf (getRR [("ResolverHit", v)] a).mean : ℚ)
      + (msOf (getRR [("ResolverHit", v)] a).median : ℚ))) = authSl.map fun _ => (0 : ℚ) := by
    apply List.map_congr_left
    intro a ha
    rw [authSl_eq] at ha
    have hz : getRR [("ResolverHit", v)] a = zeroResults := by
      fin_cases ha <;> exact getRR_single_ne v _ (by decide)
    rw [hz]
    norm_num [zeroResults, msOf, Int.zero_tdiv]
  rw [h1, h2]
  simp

/-! ### Claim theorems -/

/-- C1: for every DNS response received by the resolver probe, validation is
applied in order: an answer set without exactly one record fails with the
wrong-answer-count cause; a lone non-address record fails with the
wrong-record-type cause; a lone address record outside the fixed allowlist
`{138.197.54.54, 138.197.53.4}` fails as hijack-suspect; every failure
(transport error and timeout included) returns the 10-second sentinel
duration paired with an error cause, while success returns the measured
round-trip latency with no error. -/
theorem C1_testresolver_validation :
    (testresolver ExchRes.err = (failDuration, some FailCause.transport)) ∧
    (∀ answers rtt, answers.length ≠ 1 →
      testresolver (ExchRes.ok answers rtt) = (failDuration, some FailCause.wrongAnswerCount)) ∧
    (∀ rtt, testresolver (ExchRes.ok [DNSAnswer.other] rtt)
      = (failDuration, some FailCause.wrongRecordType)) ∧
    (∀ addr rtt, addr ∉ expectedanswers →
      testresolver (ExchRes.ok [DNSAnswer.arec addr] rtt)
        = (failDuration, some FailCause.hijackSuspect)) ∧
    (∀ addr rtt, addr ∈ expectedanswers →
      testresolver (ExchRes.ok [DNSAnswer.arec addr] rtt) = (rtt, none)) ∧
    (expectedanswers = ["138.197.54.54", "138.197.53.4"] ∧ failDuration = 10000000000) ∧
    (∀ x, ((testresolver x).2).isSome → (testresolver x).1 = failDuration) := by
  refine ⟨rfl, ?_, fun rtt => rfl, ?_, ?_, ⟨rfl, rfl⟩, testresolver_fail_duration⟩
  · intro answers rtt h
    simp [testresolver, h]
  · intro addr rtt h
    simp [testresolver, h]
  · intro addr rtt h
    simp [testresolver, h]

/-- C1 witness: the validation theorem applied to concrete exchanges. -/
theorem C1_testresolver_validation_witness :
    testresolver (ExchRes.ok [] 5) = (failDuration, some FailCause.wrongAnswerCount) ∧
    testresolver (ExchRes.ok [DNSAnswer.arec "1.2.3.4"] 5)
      = (failDuration, some FailCause.hijackSuspect) ∧
    testresolver (ExchRes.ok [DNSAnswer.arec "138.197.54.54"] 7) = (7, none) ∧
    (testresolver ExchRes.err).1 = failDuration :=
  ⟨C1_testresolver_validation.2.1 [] 5 (by decide),
   C1_testresolver_validation.2.2.2.1 "1.2.3.4" 5 (by decide),
   C1_testresolver_validation.2.2.2.2.1 "138.197.54.54" 7 (by decide),
   C1_testresolver_validation.2.2.2.2.2.2 ExchRes.err (by decide)⟩

/-- C2: for every result bundle the score equals 5 times the sum of the
ResolverHit entry's whole-millisecond mean and median, plus the sum over
every configured authoritative operator of that operator's whole-millisecond
mean plus median; bundles agreeing on every entry's mean and median get the
same score, so the failure ratios do not enter the score. -/
theorem C2_score_formula (res : recursiveResults) :
    (Score res =
      5 * ((msOf (getRR res "ResolverHit").mean : ℚ) + (msOf (getRR res "ResolverHit").median : ℚ))
      + (authSl.map fun a =>
          ((msOf (getRR res a).mean : ℚ) + (msOf (getRR res a).median : ℚ))).sum) ∧
    (∀ res', (∀ a ∈ ("ResolverHit" :: authSl),
        (getRR res' a).mean = (getRR res a).mean ∧ (getRR res' a).median = (getRR res a).median) →
      Score res' = Score res) := by
  refine ⟨score_eq res, ?_⟩
  intro res' h
  rw [score_eq res, score_eq res']
  have hhit := h "ResolverHit" (by simp)
  rw [hhit.1, hhit.2]
  congr 1
  refine congrArg List.sum (List.map_congr_left ?_)
  intro a ha
  have ham := h a (by simp [ha])
  rw [ham.1, ham.2]

/-- Demonstration bundle for C2: a complete-to-the-point-of-ResolverHit
bundle with a 2 ms mean and a 3 ms median. -/
def demoA : recursiveResults :=
  [("ResolverHit", { mean := 2000000, median := 3000000, failratio := 0 })]

/-- The same bundle with half of the trials failed. -/
def demoA' : recursiveResults :=
  [("ResolverHit", { mean := 2000000, median := 3000000, failratio := 1 / 2 })]

/-- C2 witness: the score formula evaluated on a concrete bundle, and the
failure-ratio independence applied to a concrete pair. -/
theorem C2_score_formula_witness :
    Score demoA = 25 ∧ Score demoA' = Score demoA := by
  have h := C2_score_formula demoA
  have e2 : msOf 2000000 = 2 := by decide
  have e3 : msOf 3000000 = 3 := by decide
  refine ⟨?_, h.2 demoA' (by rw [authSl_eq]; decide)⟩
  simp only [demoA, score_single, e2, e3]
  norm_num

/-- Base bundle for the C3 counterexample. -/
def demoB0 : recursiveResults :=
  [("ResolverHit", { mean := 0, median := 0, failratio := 0 })]

/-- The C3 base bundle with the ResolverHit mean increased by one
nanosecond. -/
def demoB1 : recursiveResults :=
  [("ResolverHit", { mean := 1, median := 0, failratio := 0 })]

/-- C3 counterexample: increasing the ResolverHit mean by the positive
duration of one nanosecond while every authoritative entry stays fixed
leaves the score exactly unchanged, refuting the claimed strict increase for
arbitrary positive deltas. -/
theorem C3_counterexample :
    (getRR demoB1 "ResolverHit").mean = (getRR demoB0 "ResolverHit").mean + 1 ∧
    (getRR demoB1 "ResolverHit").median = (getRR demoB0 "ResolverHit").median ∧
    (∀ a ∈ authSl, getRR demoB1 a = getRR demoB0 a) ∧
    Score demoB1 = Score demoB0 := by
  have e0 : msOf 0 = 0 := by decide
  have e1 : msOf 1 = 0 := by decide
  refine ⟨by decide, by decide, by rw [authSl_eq]; decide, ?_⟩
  simp only [demoB0, demoB1, score_single, e0, e1]

/-- C3 amended: holding every authoritative entry fixed, increasing the
ResolverHit mean and median of a bundle with nonnegative mean and median by
whole-millisecond deltas of `km` and `kmd` milliseconds changes the score by
exactly `5 * (km + kmd)`, a strict increase when `0 < km + kmd`; deltas below
one millisecond can leave the score unchanged because the millisecond
conversion truncates. -/
theorem C3_score_monotone_wholems (res res' : recursiveResults) (km kmd : Int)
    (hm : (getRR res' "ResolverHit").mean = (getRR res "ResolverHit").mean + km * 1000000)
    (hmd : (getRR res' "ResolverHit").median
      = (getRR res "ResolverHit").median + kmd * 1000000)
    (hm0 : 0 ≤ (getRR res "ResolverHit").mean)
    (hmd0 : 0 ≤ (getRR res "ResolverHit").median)
    (hkm : 0 ≤ km) (hkmd : 0 ≤ kmd)
    (hauth : ∀ a ∈ authSl, getRR res' a = getRR res a) :
    Score res' = Score res + 5 * ((km : ℚ) + (kmd : ℚ)) ∧
    (0 < km + kmd → Score res < Score res') := by
  have hmain : Score res' = Score res + 5 * ((km : ℚ) + (kmd : ℚ)) := by
    rw [score_eq res, score_eq res', hm, hmd,
      msOf_add_mul _ _ hm0 hkm, msOf_add_mul _ _ hmd0 hkmd]
    have hs : (authSl.map fun a =>
          ((msOf (getRR res' a).mean : ℚ) + (msOf (getRR res' a).median : ℚ)))
        = (authSl.map fun a =>
          ((msOf (getRR res a).mean : ℚ) + (msOf (getRR res a).median : ℚ))) := by
      apply List.map_congr_left
      intro a ha
      rw [hauth a ha]
    rw [hs]
    push_cast
    ring
  refine ⟨hmain, fun hpos => ?_⟩
  rw [hmain]
  have hq : (0 : ℚ) < (km : ℚ) + (kmd : ℚ) := by exact_mod_cast hpos
  linarith

/-- The C3 base bundle with the ResolverHit mean increased by exactly one
millisecond. -/
def demoB2 : recursiveResults :=
  [("ResolverHit", { mean := 1000000, median := 0, failratio := 0 })]

/-- C3 witness: a one-millisecond increase of the ResolverHit mean raises
the score by exactly 5. -/
theorem C3_score_monotone_wholems_witness :
    Score demoB2 = Score demoB0 + 5 * ((1 : ℚ) + (0 : ℚ)) ∧ Score demoB0 < Score demoB2 := by
  have h := C3_score_monotone_wholems demoB0 demoB2 1 0 (by decide) (by decide)
    (by decide) (by decide) (by decide) (by decide) (by rw [authSl_eq]; decide)
  exact ⟨h.1, h.2 (by decide)⟩

/-- Base bundle for the C10 counterexample: ResolverHit mean just below one
millisecond. -/
def demoC0 : recursiveResults :=
  [("ResolverHit", { mean := 999999, median := 0, failratio := 0 })]

/-- Comparison bundle for the C10 counterexample: ResolverHit mean two
nanoseconds higher, just above one millisecond. -/
def demoC1 : recursiveResults :=
  [("ResolverHit", { mean := 1000001, median := 0, failratio := 0 })]

/-- A bundle whose fields all truncate to the same whole milliseconds as the
C10 base bundle. -/
def demoC2 : recursiveResults :=
  [("ResolverHit", { mean := 999000, median := 500, failratio := 1 })]

/-- C10 counterexample: two bundles whose ResolverHit means differ by two
nanoseconds — far below one millisecond — with every other field equal
receive different scores, because the two nanoseconds straddle a
whole-millisecond boundary of the truncating division. -/
theorem C10_counterexample :
    (getRR demoC1 "ResolverHit").mean - (getRR demoC0 "ResolverHit").mean = 2 ∧
    ((2 : Int) < 1000000) ∧
    (getRR demoC1 "ResolverHit").median = (getRR demoC0 "ResolverHit").median ∧
    (∀ a ∈ authSl, getRR demoC1 a = getRR demoC0 a) ∧
    Score demoC0 ≠ Score demoC1 := by
  have ea : msOf 999999 = 0 := by decide
  have eb : msOf 1000001 = 1 := by decide
  have e0 : msOf 0 = 0 := by decide
  refine ⟨by decide, by decide, by decide, by rw [authSl_eq]; decide, ?_⟩
  simp only [demoC0, demoC1, score_single, ea, eb, e0]
  norm_num

/-- C10 amended: the scorer converts means and medians to milliseconds by
truncating integer division before summing, so every score is a whole
number, and two bundles whose corresponding means and medians truncate to
the same whole-millisecond values receive exactly equal scores. -/
theorem C10_score_truncation (res : recursiveResults) :
    (∃ n : Int, Score res = (n : ℚ)) ∧
    (∀ res', (∀ a ∈ ("ResolverHit" :: authSl),
        msOf (getRR res' a).mean = msOf (getRR res a).mean ∧
        msOf (getRR res' a).median = msOf (getRR res a).median) →
      Score res' = Score res) := by
  constructor
  · obtain ⟨n, hn⟩ := map_msOf_sum_int res authSl
    refine ⟨5 * (msOf (getRR res "ResolverHit").mean + msOf (getRR res "ResolverHit").median)
      + n, ?_⟩
    rw [score_eq res, hn]
    push_cast
    ring
  · intro res' h
    rw [score_eq res, score_eq res']
    have hhit := h "ResolverHit" (by simp)
    rw [hhit.1, hhit.2]
    congr 1
    refine congrArg List.sum (List.map_congr_left ?_)
    intro a ha
    have hq := h a (by simp [ha])
    rw [hq.1, hq.2]

/-- C10 witness: the whole-number property at a concrete bundle, and equal
scores for a concrete pair of bundles with equal whole-millisecond
truncations but different sub-millisecond fields and failure ratios. -/
theorem C10_score_truncation_witness :
    (∃ n : Int, Score demoC0 = (n : ℚ)) ∧ Score demoC2 = Score demoC0 :=
  ⟨(C10_score_truncation demoC0).1,
   (C10_score_truncation demoC0).2 demoC2 (by rw [authSl_eq]; decide)⟩

/-- The additions that actually extend the running list: the first
occurrences, in given order, of those added addresses not already present
(spec-side description of the dedup fold, to be compared with
`buildResolvers`). -/
def newAdditions : List String → List String → List String
  | _, [] => []
  | dflt, a :: as =>
    if a ∈ dflt then newAdditions dflt as else a :: newAdditions (dflt ++ [a]) as

theorem appendIfMissing_of_mem (src : List String) (nw : String) (h : nw ∈ src) :
    appendIfMissing src nw = src := by
  simp [appendIfMissing, h]

theorem appendIfMissing_of_not_mem (src : List String) (nw : String) (h : nw ∉ src) :
    appendIfMissing src nw = src ++ [nw] := by
  simp [appendIfMissing, h]

theorem mem_appendIfMissing (src : List String) (nw x : String) (h : x ∈ src) :
    x ∈ appendIfMissing src nw := by
  unfold appendIfMissing
  split
  · exact h
  · exact List.mem_append_left _ h

theorem mem_buildResolvers (dflt adds : List String) (x : String) (h : x ∈ dflt) :
    x ∈ buildResolvers dflt adds := by
  induction adds generalizing dflt with
  | nil => exact h
  | cons a as ih =>
    exact ih (appendIfMissing dflt a) (mem_appendIfMissing dflt a x h)

theorem buildResolvers_eq (dflt adds : List String) :
    buildResolvers dflt adds = dflt ++ newAdditions dflt adds := by
  induction adds generalizing dflt with
  | nil => simp [buildResolvers, newAdditions]
  | cons a as ih =>
    unfold buildResolvers at ih ⊢
    rw [List.foldl_cons]
    by_cases h : a ∈ dflt
    · rw [appendIfMissing_of_mem _ _ h, ih]
      conv =>
        rhs
        rw [newAdditions]
      rw [if_pos h]
    · rw [appendIfMissing_of_not_mem _ _ h, ih]
      conv =>
        rhs
        rw [newAdditions]
      rw [if_neg h]
      simp

theorem nodup_appendIfMissing (src : List String) (nw : String) (h : src.Nodup) :
    (appendIfMissing src nw).Nodup := by
  unfold appendIfMissing
  split
  · exact h
  · rename_i hc
    rw [List.nodup_append]
    refine ⟨h, List.nodup_singleton _, ?_⟩
    intro x hx hx'
    rw [List.mem_singleton] at hx'
    subst hx'
    simp at hc
    exact hc hx

theorem nodup_buildResolvers (dflt adds : List String) (h : dflt.Nodup) :
    (buildResolvers dflt adds).Nodup := by
  induction adds generalizing dflt with
  | nil => exact h
  | cons a as ih =>
    exact ih (appendIfMissing dflt a) (nodup_appendIfMissing dflt a h)

/-- C7: adding an address already present leaves the built resolver list
unchanged; in general the final list is the defaults in order followed by
the genuinely new additions in given order, and exact-string duplicates are
suppressed (the result stays duplicate-free whenever the defaults are). -/
theorem C7_resolver_dedup :
    (∀ (dflt l1 l2 : List String) (d : String), d ∈ dflt →
      buildResolvers dflt (l1 ++ d :: l2) = buildResolvers dflt (l1 ++ l2)) ∧
    (∀ dflt adds, buildResolvers dflt adds = dflt ++ newAdditions dflt adds) ∧
    (∀ dflt adds, dflt.Nodup → (buildResolvers dflt adds).Nodup) := by
  refine ⟨?_, buildResolvers_eq, nodup_buildResolvers⟩
  intro dflt l1 l2 d hd
  unfold buildResolvers
  rw [List.foldl_append, List.foldl_append, List.foldl_cons]
  rw [show List.foldl appendIfMissing dflt l1 = buildResolvers dflt l1 from rfl,
    appendIfMissing_of_mem _ _ (mem_buildResolvers dflt l1 d hd)]

/-- C7 witness: the dedup properties at concrete lists, with `8.8.8.8`
already among the defaults. -/
theorem C7_resolver_dedup_witness :
    buildResolvers ["8.8.8.8", "1.1.1.1"] (["9.9.9.9"] ++ "8.8.8.8" :: ["9.9.9.9"])
      = buildResolvers ["8.8.8.8", "1.1.1.1"] (["9.9.9.9"] ++ ["9.9.9.9"]) ∧
    buildResolvers ["8.8.8.8", "1.1.1.1"] ["9.9.9.9", "9.9.9.9"]
      = ["8.8.8.8", "1.1.1.1"] ++ newAdditions ["8.8.8.8", "1.1.1.1"] ["9.9.9.9", "9.9.9.9"] ∧
    (buildResolvers ["8.8.8.8", "1.1.1.1"] ["9.9.9.9", "9.9.9.9"]).Nodup :=
  ⟨C7_resolver_dedup.1 ["8.8.8.8", "1.1.1.1"] ["9.9.9.9"] ["9.9.9.9"] "8.8.8.8" (by decide),
   C7_resolver_dedup.2.1 ["8.8.8.8", "1.1.1.1"] ["9.9.9.9", "9.9.9.9"],
   C7_resolver_dedup.2.2 ["8.8.8.8", "1.1.1.1"] ["9.9.9.9", "9.9.9.9"] (by decide)⟩

/-- C9: the per-run summary is a permutation of the per-resolver scores
sorted by ascending score, and the resolver of the first (lowest-score) row
is exactly the value printed on the `Recommendation` line. -/
theorem C9_summary_sorted (s : List SummaryResolver) :
    List.Pairwise (fun a b : SummaryResolver => a.Score ≤ b.Score) (sortSummary s) ∧
    (sortSummary s).Perm s ∧
    (s ≠ [] → ∃ first rest, sortSummary s = first :: rest ∧
      recommendation s = some first.Res ∧ ∀ x ∈ s, first.Score ≤ x.Score) := by
  haveI htr : IsTrans SummaryResolver (fun a b => (!summaryLess b a) = true) := by
    constructor
    intro a b c hab hbc
    simp only [summaryLess, Bool.not_eq_true', decide_eq_false_iff_not, not_lt] at hab hbc ⊢
    exact le_trans hab hbc
  haveI hto : IsTotal SummaryResolver (fun a b => (!summaryLess b a) = true) := by
    constructor
    intro a b
    simp only [summaryLess, Bool.not_eq_true', decide_eq_false_iff_not, not_lt]
    exact le_total a.Score b.Score
  have hsorted : List.Pairwise (fun a b => (!summaryLess b a) = true) (sortSummary s) :=
    List.sorted_insertionSort _ s
  have hsorted2 : List.Pairwise (fun a b : SummaryResolver => a.Score ≤ b.Score)
      (sortSummary s) := by
    refine hsorted.imp ?_
    intro a b hab
    simpa only [summaryLess, Bool.not_eq_true', decide_eq_false_iff_not, not_lt] using hab
  have hperm : (sortSummary s).Perm s := List.perm_insertionSort _ s
  refine ⟨hsorted2, hperm, ?_⟩
  intro hne
  have hlen : sortSummary s ≠ [] := by
    intro h0
    apply hne
    have h1 := hperm.length_eq
    rw [h0] at h1
    exact List.eq_nil_of_length_eq_zero h1.symm
  cases hfirst : sortSummary s with
  | nil => exact absurd hfirst hlen
  | cons first rest =>
    refine ⟨first, rest, rfl, ?_, ?_⟩
    · unfold recommendation
      rw [hfirst]
      rfl
    · intro x hx
      have hx2 : x ∈ sortSummary s := hperm.mem_iff.mpr hx
      rw [hfirst] at hx2
      rcases List.mem_cons.mp hx2 with h | h
      · rw [h]
      · have hp := hsorted2
        rw [hfirst] at hp
        exact List.rel_of_pairwise_cons hp h

/-- C9 witness: at a concrete two-resolver summary the sort puts the lower
score first and the recommendation names exactly that first row's
resolver. -/
theorem C9_summary_sorted_witness :
    recommendation [{ Res := "x", Score := 3 }, { Res := "y", Score := 1 }]
      = some ((sortSummary [{ Res := "x", Score := 3 }, { Res := "y", Score := 1 }]).headD
          { Res := "", Score := 0 }).Res ∧
    List.Pairwise (fun a b : SummaryResolver => a.Score ≤ b.Score)
      (sortSummary [{ Res := "x", Score := 3 }, { Res := "y", Score := 1 }]) := by
  have h := C9_summary_sorted [{ Res := "x", Score := 3 }, { Res := "y", Score := 1 }]
  obtain ⟨first, rest, heq, hrec, hmin⟩ := h.2.2 (by simp)
  refine ⟨?_, h.1⟩
  rw [hrec, heq]
  rfl

/-- C5: a (resolver, probe) pair all of whose 15 trials fail yields the
summary with failure ratio exactly 1 and mean and median both equal to the
10-second sentinel. -/
theorem C5_allfail (exch : Nat → String → ExchRes) (rng : Nat → Nat → Nat)
    (ctr : Nat) (host : String) (rndSuffix : Bool)
    (h : ∀ o ∈ trialOutcomes exch rng ctr host rndSuffix, (o.2).isSome) :
    runtests exch rng ctr host rndSuffix =
      { mean := failDuration, median := failDuration, failratio := 1 } := by
  have hvals : (trialOutcomes exch rng ctr host rndSuffix).map Prod.fst
      = List.replicate 15 failDuration := by
    rw [List.eq_replicate_iff]
    refine ⟨by rw [List.length_map, trialOutcomes_length]; rfl, ?_⟩
    intro b hb
    rw [List.mem_map] at hb
    obtain ⟨o, ho, rfl⟩ := hb
    have hoo := ho
    unfold trialOutcomes at hoo
    rw [List.mem_map] at hoo
    obtain ⟨i, hi, rfl⟩ := hoo
    exact testresolver_fail_duration _ (h _ ho)
  have hfilter : ((trialOutcomes exch rng ctr host rndSuffix).filter
      fun o => (o.2).isSome) = trialOutcomes exch rng ctr host rndSuffix :=
    List.filter_eq_self.mpr h
  simp only [runtests]
  rw [hvals, hfilter, trialOutcomes_length, statsMean_replicate, statsMedian_replicate15,
    durOfFloat_intCast]
  norm_num [testrep, resolverResults.mk.injEq]

/-- The everywhere-failing exchange oracle. -/
def exFail : Nat → String → ExchRes := fun _ _ => ExchRes.err

/-- A constant rune-draw oracle. -/
def rng0 : Nat → Nat → Nat := fun _ _ => 0

/-- C5 witness: the all-fail summary at a concrete oracle. -/
theorem C5_allfail_witness :
    runtests exFail rng0 0 "fixed.turbobytes.net." false
      = { mean := failDuration, median := failDuration, failratio := 1 } :=
  C5_allfail exFail rng0 0 "fixed.turbobytes.net." false (by decide)

/-- C6: a (resolver, probe) pair with zero failures among its 15 trials —
every trial returning a measured latency within the 1-second per-query
timeout — yields a summary whose mean and median are strictly below the
10-second sentinel (and a zero failure ratio). -/
theorem C6_nofail (exch : Nat → String → ExchRes) (rng : Nat → Nat → Nat)
    (ctr : Nat) (host : String) (rndSuffix : Bool)
    (h : ∀ o ∈ trialOutcomes exch rng ctr host rndSuffix,
      o.2 = none ∧ 0 ≤ o.1 ∧ o.1 ≤ 1000000000) :
    (runtests exch rng ctr host rndSuffix).mean < failDuration ∧
    (runtests exch rng ctr host rndSuffix).median < failDuration ∧
    (runtests exch rng ctr host rndSuffix).failratio = 0 := by
  have hlen : ((trialOutcomes exch rng ctr host rndSuffix).map Prod.fst).length = 15 := by
    rw [List.length_map, trialOutcomes_length]
    rfl
  have hmem : ∀ x ∈ (trialOutcomes exch rng ctr host rndSuffix).map Prod.fst,
      0 ≤ x ∧ x ≤ 1000000000 := by
    intro x hx
    rw [List.mem_map] at hx
    obtain ⟨o, ho, rfl⟩ := hx
    exact (h o ho).2
  refine ⟨?_, ?_, ?_⟩
  · simp only [runtests]
    rw [durOfFloat_floor _ (statsMean_nonneg _ fun x hx => (hmem x hx).1)]
    have hb : statsMean ((trialOutcomes exch rng ctr host rndSuffix).map Prod.fst)
        ≤ ((1000000000 : ℤ) : ℚ) :=
      statsMean_le _ _ hlen fun x hx => (hmem x hx).2
    have hfl := Int.floor_mono hb
    rw [Int.floor_intCast] at hfl
    unfold failDuration
    omega
  · simp only [runtests]
    obtain ⟨m, hm, hmmem, _, _⟩ := statsMedian_spec _ hlen
    rw [hm, durOfFloat_intCast]
    have hb := (hmem m hmmem).2
    unfold failDuration
    omega
  · simp only [runtests]
    have hf : ((trialOutcomes exch rng ctr host rndSuffix).filter
        fun o => (o.2).isSome) = [] := by
      rw [List.filter_eq_nil_iff]
      intro o ho
      rw [(h o ho).1]
      simp
    rw [hf]
    norm_num

/-- The everywhere-valid exchange oracle answering the allowlisted address
in one millisecond. -/
def exOk : Nat → String → ExchRes :=
  fun _ _ => ExchRes.ok [DNSAnswer.arec "138.197.54.54"] 1000000

/-- C6 witness: the no-failure summary at a concrete oracle. -/
theorem C6_nofail_witness :
    (runtests exOk rng0 0 "fixed.turbobytes.net." false).mean < failDuration ∧
    (runtests exOk rng0 0 "fixed.turbobytes.net." false).median < failDuration ∧
    (runtests exOk rng0 0 "fixed.turbobytes.net." false).failratio = 0 :=
  C6_nofail exOk rng0 0 "fixed.turbobytes.net." false (by decide)

/-- Exchange oracle for the C4 counterexample: the first query measures one
nanosecond, every later query zero nanoseconds, all with valid answers. -/
def exC4 : Nat → String → ExchRes := fun q _ =>
  if q = 0 then ExchRes.ok [DNSAnswer.arec "138.197.54.54"] 1
  else ExchRes.ok [DNSAnswer.arec "138.197.54.54"] 0

/-- C4 counterexample: with duration values `[1, 0, …, 0]` (nanoseconds) the
stored mean is 0 ns while the arithmetic mean of the 15 values is 1/15 ns:
the stored mean is not the arithmetic mean but its truncation to a whole
nanosecond count. -/
theorem C4_mean_counterexample :
    ((runtests exC4 rng0 0 "fixed.turbobytes.net." false).mean : ℚ)
      ≠ statsMean ((trialOutcomes exC4 rng0 0 "fixed.turbobytes.net." false).map Prod.fst) := by
  have hv : (trialOutcomes exC4 rng0 0 "fixed.turbobytes.net." false).map Prod.fst
      = 1 :: List.replicate 14 0 := by decide
  have hsm : statsMean (1 :: List.replicate 14 (0 : Int)) = 1 / 15 := by
    norm_num [statsMean, List.sum_replicate]
  have hmean : (runtests exC4 rng0 0 "fixed.turbobytes.net." false).mean = 0 := by
    simp only [runtests]
    rw [hv, hsm, durOfFloat_floor _ (by norm_num), Int.floor_eq_zero_iff]
    constructor <;> norm_num
  rw [hmean, hv, hsm]
  norm_num

/-- C4 amended: for every (resolver, probe) pair the aggregator runs the
probe exactly 15 times sequentially against the flag-determined hostname
(a fresh random 15-character lowercase label — `randStringRunes(15)` built
from that query's own rune draws — prefixed per query when randomization is
set, the plain hostname otherwise, in which case the rune-draw oracle is
irrelevant), reading the
exchange oracle only at its own 15 query sequence numbers; failed trials
contribute the 10-second sentinel value; the stored mean is the arithmetic
mean of the 15 duration values truncated to a whole nanosecond count (its
floor, durations being nonnegative), the stored median is one of the 15
values with at least 8 of them at or below it and at least 8 at or above it,
and the failure ratio is the failed-trial count divided by 15; the
aggregator is a total function and never itself fails. -/
theorem C4_runtests_spec (exch : Nat → String → ExchRes) (rng : Nat → Nat → Nat)
    (ctr : Nat) (host : String) (rndSuffix : Bool) :
    ((trialOutcomes exch rng ctr host rndSuffix).length = 15) ∧
    (∀ exch', (∀ q hst, ctr ≤ q → q < ctr + 15 → exch q hst = exch' q hst) →
      runtests exch rng ctr host rndSuffix = runtests exch' rng ctr host rndSuffix) ∧
    (∀ q, trialHostname rng host true q = randStringRunes (rng q) 15 ++ "." ++ host) ∧
    (∀ q, (randStringRunes (rng q) 15).length = 15 ∧
      ∀ c ∈ (randStringRunes (rng q) 15).toList, c ∈ letterRunes) ∧
    (∀ q, trialHostname rng host false q = host) ∧
    (∀ rng', runtests exch rng ctr host false = runtests exch rng' ctr host false) ∧
    (∀ o ∈ trialOutcomes exch rng ctr host rndSuffix, (o.2).isSome → o.1 = failDuration) ∧
    ((∀ o ∈ trialOutcomes exch rng ctr host rndSuffix, 0 ≤ o.1) →
      (runtests exch rng ctr host rndSuffix).mean
        = ⌊statsMean ((trialOutcomes exch rng ctr host rndSuffix).map Prod.fst)⌋ ∧
      ((runtests exch rng ctr host rndSuffix).mean : ℚ)
        ≤ statsMean ((trialOutcomes exch rng ctr host rndSuffix).map Prod.fst) ∧
      statsMean ((trialOutcomes exch rng ctr host rndSuffix).map Prod.fst)
        < ((runtests exch rng ctr host rndSuffix).mean : ℚ) + 1) ∧
    (∃ m : Int, (runtests exch rng ctr host rndSuffix).median = m ∧
      m ∈ (trialOutcomes exch rng ctr host rndSuffix).map Prod.fst ∧
      8 ≤ ((trialOutcomes exch rng ctr host rndSuffix).map Prod.fst).countP
          (fun x => x ≤ m) ∧
      8 ≤ ((trialOutcomes exch rng ctr host rndSuffix).map Prod.fst).countP
          (fun x => m ≤ x)) ∧
    ((runtests exch rng ctr host rndSuffix).failratio
      = (((trialOutcomes exch rng ctr host rndSuffix).countP
          fun o => (o.2).isSome : ℕ) : ℚ) / 15) := by
  have hlen : ((trialOutcomes exch rng ctr host rndSuffix).map Prod.fst).length = 15 := by
    rw [List.length_map, trialOutcomes_length]
    rfl
  refine ⟨by rw [trialOutcomes_length]; rfl, ?_, fun q => rfl,
    fun q => randStringRunes_spec (rng q) 15, fun q => rfl,
    fun rng' => runtests_rng_irrel exch rng rng' ctr host, ?_, ?_, ?_, ?_⟩
  · intro exch' hagree
    exact runtests_congr exch exch' rng ctr host rndSuffix hagree
  · intro o ho hsome
    have hoo := ho
    unfold trialOutcomes at hoo
    rw [List.mem_map] at hoo
    obtain ⟨i, hi, rfl⟩ := hoo
    exact testresolver_fail_duration _ hsome
  · intro h0
    have hnn : ∀ x ∈ (trialOutcomes exch rng ctr host rndSuffix).map Prod.fst, 0 ≤ x := by
      intro x hx
      rw [List.mem_map] at hx
      obtain ⟨o, ho, rfl⟩ := hx
      exact h0 o ho
    have hfl : (runtests exch rng ctr host rndSuffix).mean
        = ⌊statsMean ((trialOutcomes exch rng ctr host rndSuffix).map Prod.fst)⌋ := by
      simp only [runtests]
      exact durOfFloat_floor _ (statsMean_nonneg _ hnn)
    refine ⟨hfl, ?_, ?_⟩
    · rw [hfl]
      exact Int.floor_le _
    · rw [hfl]
      exact Int.lt_floor_add_one _
  · obtain ⟨m, hm, hmem, hc1, hc2⟩ := statsMedian_spec _ hlen
    refine ⟨m, ?_, hmem, hc1, hc2⟩
    simp only [runtests]
    rw [hm, durOfFloat_intCast]
  · simp only [runtests]
    rw [List.countP_eq_length_filter]
    norm_num [testrep]

/-- A second oracle for the C4 witness, agreeing with the everywhere-failing
oracle on the first 15 query sequence numbers only. -/
def exC4b : Nat → String → ExchRes := fun q _ =>
  if q < 15 then ExchRes.err else ExchRes.ok [] 0

/-- C4 witness: the aggregator contract applied at a concrete oracle — 15
trials, oracle-locality against a second oracle agreeing on the window, the
label of a concrete query being 15 lowercase characters, sentinel
contribution of a concrete failing trial, and the mean and failure ratio
formulas. -/
theorem C4_runtests_spec_witness :
    (trialOutcomes exFail rng0 0 "fixed.turbobytes.net." false).length = 15 ∧
    runtests exFail rng0 0 "fixed.turbobytes.net." false
      = runtests exC4b rng0 0 "fixed.turbobytes.net." false ∧
    ((randStringRunes (rng0 0) 15).length = 15 ∧
      ∀ c ∈ (randStringRunes (rng0 0) 15).toList, c ∈ letterRunes) ∧
    ((failDuration, some FailCause.transport) : Int × Option FailCause).1 = failDuration ∧
    (runtests exFail rng0 0 "fixed.turbobytes.net." false).mean
      = ⌊statsMean ((trialOutcomes exFail rng0 0 "fixed.turbobytes.net." false).map Prod.fst)⌋ ∧
    (runtests exFail rng0 0 "fixed.turbobytes.net." false).failratio
      = (((trialOutcomes exFail rng0 0 "fixed.turbobytes.net." false).countP
          fun o => (o.2).isSome : ℕ) : ℚ) / 15 := by
  have h := C4_runtests_spec exFail rng0 0 "fixed.turbobytes.net." false
  refine ⟨h.1, ?_, h.2.2.2.1 0, ?_, (h.2.2.2.2.2.2.2.1 (by decide)).1,
    h.2.2.2.2.2.2.2.2.2⟩
  · apply h.2.1 exC4b
    intro q hst h1 h2
    simp only [exFail, exC4b]
    rw [if_pos (by omega)]
  · exact h.2.2.2.2.2.2.1 (failDuration, some FailCause.transport) (by decide) (by decide)

/-- C8: for every resolver the orchestrator picks one cache-hit hostname
from the configured set (the random index stays in range), produces a bundle
whose keys are exactly the reserved `ResolverHit` key followed by every
configured authoritative operator in lexicographically sorted order; the
`ResolverHit` entry is one aggregator sample with randomization disabled
against the chosen hostname, taken after the 5 priming queries (the sample's
first query has sequence number 5); each operator entry is one aggregator
sample with randomization enabled against that operator's hostname; and the
bundle is independent of the outcomes of the 5 priming queries (sequence
numbers 0–4), which are issued and ignored. -/
theorem C8_testrecursive (exch exch' : Nat → String → ExchRes) (rng : Nat → Nat → Nat)
    (hitIdx : Nat) (hhit : hitIdx < hostnamesHIT.length) :
    ((testrecursive exch rng hitIdx).map Prod.fst = "ResolverHit" :: authSl) ∧
    (hostnamesHIT.getD hitIdx "" ∈ hostnamesHIT) ∧
    (List.Pairwise (fun a b : String => a ≤ b) authSl
      ∧ authSl.Perm (auths.map Prod.fst)) ∧
    (getRR (testrecursive exch rng hitIdx) "ResolverHit"
      = runtests exch rng primingQueries (hostnamesHIT.getD hitIdx "") false) ∧
    (∀ a ∈ authSl, ∃ ctr, primingQueries ≤ ctr ∧
      getRR (testrecursive exch rng hitIdx) a
        = runtests exch rng ctr (authsHost a) true) ∧
    ((∀ q hst, primingQueries ≤ q → exch q hst = exch' q hst) →
      testrecursive exch rng hitIdx = testrecursive exch' rng hitIdx) := by
  refine ⟨?_, ?_, ⟨?_, List.perm_insertionSort _ _⟩, rfl, ?_, ?_⟩
  · unfold testrecursive
    simp only [List.map_cons, List.map_map]
    congr 1
  · rw [List.getD_eq_getElem _ _ hhit]
    exact List.getElem_mem hhit
  · haveI htr : IsTrans String (fun a b => a.toList ≤ b.toList) :=
      ⟨fun a b c hab hbc => le_trans hab hbc⟩
    haveI hto : IsTotal String (fun a b => a.toList ≤ b.toList) :=
      ⟨fun a b => le_total a.toList b.toList⟩
    have hs : List.Pairwise (fun a b : String => a.toList ≤ b.toList) authSl :=
      List.sorted_insertionSort _ _
    exact hs.imp fun hab => String.le_iff_toList_le.mpr hab
  · intro a ha
    rw [authSl_eq] at ha
    fin_cases ha
    · exact ⟨20, by decide, rfl⟩
    · exact ⟨35, by decide, rfl⟩
    · exact ⟨50, by decide, rfl⟩
    · exact ⟨65, by decide, rfl⟩
    · exact ⟨80, by decide, rfl⟩
    · exact ⟨95, by decide, rfl⟩
    · exact ⟨110, by decide, rfl⟩
    · exact ⟨125, by decide, rfl⟩
    · exact ⟨140, by decide, rfl⟩
    · exact ⟨155, by decide, rfl⟩
    · exact ⟨170, by decide, rfl⟩
  · intro hagree
    unfold testrecursive
    congr 1
    · congr 1
      apply runtests_congr
      intro q hst h1 h2
      exact hagree q hst h1
    · apply List.map_congr_left
      intro p hp
      congr 1
      apply runtests_congr
      intro q hst h1 h2
      apply hagree q hst
      omega

/-- C8 witness: the orchestration contract at a concrete oracle with the
first cache-hit hostname chosen. -/
theorem C8_testrecursive_witness :
    (testrecursive exFail rng0 0).map Prod.fst = "ResolverHit" :: authSl ∧
    getRR (testrecursive exFail rng0 0) "ResolverHit"
      = runtests exFail rng0 primingQueries "fixed.turbobytes.net." false ∧
    (∃ ctr, primingQueries ≤ ctr ∧ getRR (testrecursive exFail rng0 0) "Akamai"
      = runtests exFail rng0 ctr (authsHost "Akamai") true) ∧
    testrecursive exFail rng0 0 = testrecursive exFail rng0 0 := by
  have h := C8_testrecursive exFail exFail rng0 0 (by decide)
  refine ⟨h.1, ?_, ?_, h.2.2.2.2.2 fun q hst h1 => rfl⟩
  · exact h.2.2.2.1
  · exact h.2.2.2.2.1 "Akamai" (by rw [authSl_eq]; decide)

end Dnsperfbench
